import Mathlib

/-
Verification of the version-comparison and container-listing layer of the
go-lxc binding (`lxc-binding.go`).  The Go functions are embedded shallowly:
strings become `List Char` (with `String` wrappers matching the Go
signatures), the C runtime primitives (`lxc_get_version`,
`lxc_container_new`, `list_all_containers`, `list_defined_containers`,
`list_active_containers`, `go_lxc_has_api_extension`) are abstracted as
explicit function parameters, and the Go standard-library helpers
(`strings.Split`, `strings.Replace`, `strconv.Atoi`) are re-implemented
faithfully below.
-/

namespace GoLxc

/-- Go `strings.Split(s, sep)` for a one-character separator, which is the
only shape of separator `lxc-binding.go` ever passes (`"~"`, `"."`, `"-"`).
Splits around every occurrence of `sep`; the result is never empty and
`Split("", sep) = [""]`. -/
def goSplitChar (sep : Char) : List Char → List (List Char)
  | [] => [[]]
  | ch :: rest =>
    match goSplitChar sep rest with
    | [] => [[ch]]
    | p :: ps => if ch = sep then [] :: p :: ps else (ch :: p) :: ps

/-- Go `strings.Replace(s, old, new, 1)` for non-empty `old`: replaces the
leftmost occurrence of `old` (if any) by `rep`. -/
def goReplaceOnce : List Char → List Char → List Char → List Char
  | [], _, _ => []
  | ch :: rest, old, rep =>
    if old.isPrefixOf (ch :: rest) then rep ++ (ch :: rest).drop old.length
    else ch :: goReplaceOnce rest old rep

/-- Go `strconv.Atoi(s)`: an optional sign followed by at least one decimal
digit, with the value required to fit in a 64-bit `int`; `none` models a
non-nil `err`. -/
def goAtoi (s : List Char) : Option Int :=
  let signed : Bool × List Char :=
    match s with
    | '+' :: rest => (false, rest)
    | '-' :: rest => (true, rest)
    | _ => (false, s)
  let neg := signed.1
  let ds := signed.2
  if ds = [] then none
  else if ds.all (fun c => c.isDigit) then
    let n : Nat := ds.foldl (fun acc c => acc * 10 + (c.toNat - '0'.toNat)) 0
    if neg then
      if n ≤ 2 ^ 63 then some (-(n : Int)) else none
    else
      if n ≤ 2 ^ 63 - 1 then some (n : Int) else none
  else none

/-- `version = strings.Split(version, "~")[0]` — strip git versioning from
pre-release snapshots. -/
def afterTilde (version : List Char) : List Char := (goSplitChar '~' version).headI

/-- `version = strings.Replace(version, " (devel)", "-devel", 1)` — convert
the devel indicator into a valid version. -/
def afterDevelNorm (version : List Char) : List Char :=
  goReplaceOnce version " (devel)".data "-devel".data

/-- `parts := strings.Split(version, ".")` after the two preprocessing
steps of `RuntimeLiblxcVersionAtLeast`. -/
def versionParts (version : List Char) : List (List Char) :=
  goSplitChar '.' (afterDevelNorm (afterTilde version))

/-- `develParts := strings.Split(parts[partsLen-1], "-");
len(develParts) == 2 && develParts[1] == "devel"` — the short-circuit that
treats a development build as supporting everything. -/
def isDevelParts (parts : List (List Char)) : Bool :=
  match goSplitChar '-' (parts.getLastD []) with
  | [_, d] => d == "devel".data
  | _ => false

/-- The parsing loop of `RuntimeLiblxcVersionAtLeast`: `maj`, `min`, `mic`
start at the sentinel `-1`; the loop walks `parts`, stops after index 2,
and returns with an error (here `none`) as soon as `strconv.Atoi` fails on
any visited part. -/
def parseLoop (parts : List (List Char)) : Option (Int × Int × Int) :=
  match parts with
  | [] => some (-1, -1, -1)
  | [a] =>
    match goAtoi a with
    | none => none
    | some x => some (x, -1, -1)
  | [a, b] =>
    match goAtoi a, goAtoi b with
    | some x, some y => some (x, y, -1)
    | _, _ => none
  | a :: b :: c :: _ =>
    match goAtoi a, goAtoi b, goAtoi c with
    | some x, some y, some z => some (x, y, z)
    | _, _, _ => none

/-- The three-level comparison at the end of `RuntimeLiblxcVersionAtLeast`:
major first, then minor, then micro; strict inequality decides immediately
and full equality yields `true`. -/
def cmpAtLeast (mj mn mc major minor micro : Int) : Bool :=
  if mj > major then true
  else if mj < major then false
  else if mn > minor then true
  else if mn < minor then false
  else if mc > micro then true
  else if mc < micro then false
  else true

/-- `RuntimeLiblxcVersionAtLeast` on the character list of the version
string: strip `~`-suffix, normalize `" (devel)"` to `"-devel"`, split on
`"."`, short-circuit on an empty split or a devel marker, then parse and
compare. -/
def runtimeAtLeastCore (version : List Char) (major minor micro : Int) : Bool :=
  if (versionParts version).length = 0 then false
  else if isDevelParts (versionParts version) then true
  else
    match parseLoop (versionParts version) with
    | none => false
    | some (mj, mn, mc) => cmpAtLeast mj mn mc major minor micro

/-- `RuntimeLiblxcVersionAtLeast(version, major, minor, micro)` of
`lxc-binding.go`. -/
def RuntimeLiblxcVersionAtLeast (version : String) (major minor micro : Int) : Bool :=
  runtimeAtLeastCore version.data major minor micro

/-- The display transformation of `Version()`: when the raw string reported
by `lxc_get_version` ends in `"-devel"`, that suffix is replaced by
`" (devel)"`; otherwise the string is returned unchanged. -/
def versionDisplay (raw : List Char) : List Char :=
  if "-devel".data.isSuffixOf raw then raw.take (raw.length - 6) ++ " (devel)".data
  else raw

/-- `Version()` of `lxc-binding.go`, with the raw result of the external
call `C.lxc_get_version()` passed in as a parameter. -/
def Version (raw : String) : String :=
  ⟨versionDisplay raw.data⟩

/-- `HasAPIExtension(extension)` of `lxc-binding.go`: the external runtime
query `C.go_lxc_has_api_extension` is abstracted as `extQuery`, and the raw
version string reported by `C.lxc_get_version()` as `raw`.  The query is
consulted only behind the `RuntimeLiblxcVersionAtLeast(Version(), 3, 1, 0)`
gate. -/
def HasAPIExtension (raw : String) (extQuery : String → Bool) (extension : String) : Bool :=
  if RuntimeLiblxcVersionAtLeast (Version raw) 3 1 0 then extQuery extension
  else false

/-- Verbosity of a container handle; `NewContainer` always starts at
`quiet`.  (The `Verbosity` type itself lives in `container.go`, outside the
sources in scope; only the default value matters here.) -/
inductive Verbosity
  | quiet
  | verbose
deriving DecidableEq

/-- Modelled from the spec: the `Container` struct of `container.go` (not
among the sources in scope) as far as `NewContainer` initializes it — a
non-null native handle reference (abstracted as a `Nat` returned by the
allocator) and a verbosity defaulting to quiet. -/
structure Container where
  container : Nat
  verbosity : Verbosity
deriving DecidableEq

/-- `NewContainer(name, lxcpath...)`: the external allocator
`C.lxc_container_new` is abstracted as `alloc` (returning `none` for a NULL
pointer).  A path argument is forwarded only when exactly one was supplied;
otherwise NULL is passed.  A NULL allocation yields `ErrNewFailed`,
modelled as `none`. -/
def newContainer (alloc : String → Option String → Option Nat)
    (name : String) (lxcpath : List String) : Option Container :=
  let c := if lxcpath.length = 1 then alloc name (some (lxcpath.getD 0 "")) else alloc name none
  match c with
  | none => none
  | some h => some { container := h, verbosity := Verbosity.quiet }

/-- Modelled from the spec: `convertNArgs(cnames, size)` of `util.go` (not
among the sources in scope) materializes exactly `size` names from the
buffer filled by the runtime listing primitive. -/
def convertNArgs (cnames : List String) (size : Int) : List String :=
  cnames.take size.toNat

/-- `ContainerNames(lxcpath...)`: the external primitive
`C.list_all_containers` is abstracted as `listAll`, returning the reported
count and the filled name buffer.  A path argument is forwarded only when
exactly one was supplied; a reported count below 1 yields `nil`. -/
def containerNames (listAll : Option String → Int × List String)
    (lxcpath : List String) : List String :=
  let r := if lxcpath.length = 1 then listAll (some (lxcpath.getD 0 "")) else listAll none
  if r.1 < 1 then [] else convertNArgs r.2 r.1

/-- `DefinedContainerNames(lxcpath...)`, identical to `ContainerNames` but
over `C.list_defined_containers` (abstracted as `listDefined`). -/
def definedContainerNames (listDefined : Option String → Int × List String)
    (lxcpath : List String) : List String :=
  let r := if lxcpath.length = 1 then listDefined (some (lxcpath.getD 0 "")) else listDefined none
  if r.1 < 1 then [] else convertNArgs r.2 r.1

/-- `ActiveContainerNames(lxcpath...)`, identical to `ContainerNames` but
over `C.list_active_containers` (abstracted as `listActive`). -/
def activeContainerNames (listActive : Option String → Int × List String)
    (lxcpath : List String) : List String :=
  let r := if lxcpath.length = 1 then listActive (some (lxcpath.getD 0 "")) else listActive none
  if r.1 < 1 then [] else convertNArgs r.2 r.1

/-- `Containers(lxcpath...)`: for each name from `ContainerNames`, attempt
`NewContainer` and append the handle on success; a failed creation is
skipped silently.  The for/append loop is `List.filterMap`. -/
def containers (listAll : Option String → Int × List String)
    (alloc : String → Option String → Option Nat) (lxcpath : List String) : List Container :=
  (containerNames listAll lxcpath).filterMap (fun v => newContainer alloc v lxcpath)

/-- `DefinedContainers(lxcpath...)`, the same loop over
`DefinedContainerNames`. -/
def definedContainers (listDefined : Option String → Int × List String)
    (alloc : String → Option String → Option Nat) (lxcpath : List String) : List Container :=
  (definedContainerNames listDefined lxcpath).filterMap (fun v => newContainer alloc v lxcpath)

/-- `ActiveContainers(lxcpath...)`, the same loop over
`ActiveContainerNames`. -/
def activeContainers (listActive : Option String → Int × List String)
    (alloc : String → Option String → Option Nat) (lxcpath : List String) : List Container :=
  (activeContainerNames listActive lxcpath).filterMap (fun v => newContainer alloc v lxcpath)

/-! Helper lemmas about the embedded Go string primitives. -/

theorem goSplitChar_ne_nil (sep : Char) (s : List Char) : goSplitChar sep s ≠ [] := by
  induction s with
  | nil => simp [goSplitChar]
  | cons ch rest ih =>
    cases h : goSplitChar sep rest with
    | nil => simp [goSplitChar, h]
    | cons p ps =>
      simp only [goSplitChar, h]
      split <;> simp

theorem headI_goSplitChar (sep : Char) (s : List Char) :
    (goSplitChar sep s).headI = s.takeWhile (fun c => c != sep) := by
  induction s with
  | nil => rfl
  | cons ch rest ih =>
    cases h : goSplitChar sep rest with
    | nil => exact absurd h (goSplitChar_ne_nil sep rest)
    | cons p ps =>
      simp only [goSplitChar, h]
      by_cases hc : ch = sep
      · subst hc
        simp [List.takeWhile_cons]
      · rw [h] at ih
        simp only [List.headI] at ih
        simp [hc, List.takeWhile_cons, ih]

theorem goSplitChar_eq_single (sep : Char) (s : List Char) (h : sep ∉ s) :
    goSplitChar sep s = [s] := by
  induction s with
  | nil => rfl
  | cons ch rest ih =>
    have h1 : ch ≠ sep := fun he => h (he ▸ List.mem_cons_self ch rest)
    have h2 : sep ∉ rest := fun hm => h (List.mem_cons_of_mem ch hm)
    simp [goSplitChar, ih h2, h1]

theorem goSplitChar_append (sep : Char) (a rest : List Char) (h : sep ∉ a) :
    goSplitChar sep (a ++ sep :: rest) = a :: goSplitChar sep rest := by
  induction a with
  | nil =>
    cases hr : goSplitChar sep rest with
    | nil => exact absurd hr (goSplitChar_ne_nil sep rest)
    | cons p ps => simp [goSplitChar, hr]
  | cons x a' ih =>
    have h1 : x ≠ sep := fun he => h (he ▸ List.mem_cons_self x a')
    have h2 : sep ∉ a' := fun hm => h (List.mem_cons_of_mem x hm)
    cases hr : goSplitChar sep (a' ++ sep :: rest) with
    | nil => exact absurd hr (goSplitChar_ne_nil sep _)
    | cons p ps =>
      have := ih h2
      rw [hr] at this
      cases this
      simp [goSplitChar, hr, h1]

theorem goReplaceOnce_of_not_infix (s old rep : List Char) (h : ¬ old <:+: s) :
    goReplaceOnce s old rep = s := by
  induction s with
  | nil => rfl
  | cons ch rest ih =>
    have h1 : ¬ old.isPrefixOf (ch :: rest) := by
      intro hp
      exact h (List.isPrefixOf_iff_prefix.1 hp).isInfix
    have h2 : ¬ old <:+: rest := fun hi => h (hi.trans (List.suffix_cons ch rest).isInfix)
    simp [goReplaceOnce, h1, ih h2]

theorem goReplaceOnce_append (old rep : List Char) (hne : old ≠ [])
    (c r : List Char) (h : ¬ old <:+: (c ++ old.take (old.length - 1))) :
    goReplaceOnce (c ++ (old ++ r)) old rep = c ++ (rep ++ r) := by
  induction c with
  | nil =>
    obtain ⟨o, os, rfl⟩ : ∃ o os, old = o :: os := by
      cases old with
      | nil => exact absurd rfl hne
      | cons o os => exact ⟨o, os, rfl⟩
    have hp : (o :: os).isPrefixOf ((o :: os) ++ r) :=
      List.isPrefixOf_iff_prefix.2 (List.prefix_append _ r)
    simp only [List.nil_append, List.cons_append] at hp ⊢
    simp only [goReplaceOnce, hp, if_pos]
    rw [show (o :: (os ++ r)) = (o :: os) ++ r from rfl, List.drop_left]
  | cons ch c' ih =>
    have h1 : ¬ old.isPrefixOf (ch :: (c' ++ (old ++ r))) := by
      intro hp
      have hpre : old <+: (ch :: c') ++ (old ++ r) :=
        List.isPrefixOf_iff_prefix.1 hp
      apply h
      rw [List.prefix_iff_eq_take] at hpre
      rw [List.take_append_eq_append_take] at hpre
      by_cases hlen : old.length ≤ (ch :: c').length
      · have : old.length - (ch :: c').length = 0 := Nat.sub_eq_zero_of_le hlen
        rw [this, List.take_zero, List.append_nil] at hpre
        have : old <+: (ch :: c') := hpre ▸ List.take_prefix _ _
        exact (this.trans (List.prefix_append _ _)).isInfix
      · push_neg at hlen
        have htk : (ch :: c').take old.length = ch :: c' :=
          List.take_of_length_le (Nat.le_of_lt hlen)
        rw [htk] at hpre
        have hk : old.length - (ch :: c').length ≤ old.length - 1 := by
          have : 1 ≤ (ch :: c').length := by simp
          omega
        have htk2 : (old ++ r).take (old.length - (ch :: c').length) =
            old.take (old.length - (ch :: c').length) := by
          rw [List.take_append_eq_append_take]
          have : old.length - (ch :: c').length - old.length = 0 := by omega
          rw [this, List.take_zero, List.append_nil]
        rw [htk2] at hpre
        have hsub : old.take (old.length - (ch :: c').length) <+: old.take (old.length - 1) := by
          have : old.take (old.length - (ch :: c').length) =
              (old.take (old.length - 1)).take (old.length - (ch :: c').length) := by
            rw [List.take_take, Nat.min_eq_left hk]
          rw [this]
          exact List.take_prefix _ _
        obtain ⟨t, ht⟩ := hsub
        refine ⟨[], t, ?_⟩
        have e1 : old ++ t = ((ch :: c') ++ List.take (old.length - (ch :: c').length) old) ++ t :=
          congrArg (fun l => l ++ t) hpre
        rw [List.nil_append, e1, List.append_assoc, ht]
    have h2 : ¬ old <:+: (c' ++ old.take (old.length - 1)) := by
      intro hi
      exact h (hi.trans (List.suffix_cons ch _).isInfix)
    show goReplaceOnce (ch :: (c' ++ (old ++ r))) old rep = ch :: (c' ++ (rep ++ r))
    simp only [goReplaceOnce]
    rw [if_neg h1, ih h2]

theorem develPat_no_crossing (c : List Char)
    (h : " (devel)".data <:+: (c ++ " (devel)".data.take 7)) :
    " (devel)".data <:+: c := by
  obtain ⟨u, v, huv⟩ := h
  have hplen : (" (devel)".data).length = 8 := rfl
  have hp7len : (" (devel)".data.take 7).length = 7 := rfl
  have hL : u.length + 8 + v.length = c.length + 7 := by
    have hlen := congrArg List.length huv
    simp only [List.length_append, hplen, hp7len] at hlen
    omega
  by_cases hc : u.length + 8 ≤ c.length
  · have htake := congrArg (List.take (u.length + 8)) huv
    have e1 : (u ++ " (devel)".data ++ v).take (u.length + 8) = u ++ " (devel)".data := by
      have hlen2 : (u ++ " (devel)".data).length = u.length + 8 := by
        simp [List.length_append, hplen]
      rw [← hlen2, List.take_left]
    have e2 : (c ++ " (devel)".data.take 7).take (u.length + 8) = c.take (u.length + 8) := by
      rw [List.take_append_eq_append_take]
      have h0 : u.length + 8 - c.length = 0 := by omega
      rw [h0, List.take_zero, List.append_nil]
    rw [e1, e2] at htake
    have hpre : (u ++ " (devel)".data) <+: c := htake ▸ List.take_prefix _ _
    obtain ⟨t, ht⟩ := hpre
    exact ⟨u, t, ht⟩
  · exfalso
    push_neg at hc
    have hv : v.length ≤ 6 := by omega
    have hdlen : (c.drop u.length).length = 1 + v.length := by
      rw [List.length_drop]
      omega
    have hdrop := congrArg (List.drop u.length) huv
    have e1 : (u ++ " (devel)".data ++ v).drop u.length = " (devel)".data ++ v := by
      rw [List.append_assoc, List.drop_left]
    have e2 : (c ++ " (devel)".data.take 7).drop u.length =
        c.drop u.length ++ " (devel)".data.take 7 := by
      rw [List.drop_append_eq_append_drop]
      have h0 : u.length - c.length = 0 := by omega
      rw [h0, List.drop_zero]
    rw [e1, e2] at hdrop
    have ht2 := congrArg (List.drop (c.drop u.length).length) hdrop
    have e5 : (" (devel)".data ++ v).drop (c.drop u.length).length =
        " (devel)".data.drop (c.drop u.length).length ++ v := by
      rw [List.drop_append_eq_append_drop]
      have h0 : (c.drop u.length).length - (" (devel)".data).length = 0 := by
        rw [hdlen, hplen]; omega
      rw [h0, List.drop_zero]
    have e6 : (c.drop u.length ++ " (devel)".data.take 7).drop (c.drop u.length).length =
        " (devel)".data.take 7 := List.drop_left _ _
    rw [e5, e6] at ht2
    have ht3 := congrArg (List.take (8 - (c.drop u.length).length)) ht2
    have e7 : (" (devel)".data.drop (c.drop u.length).length ++ v).take
        (8 - (c.drop u.length).length) = " (devel)".data.drop (c.drop u.length).length := by
      have hlen3 : (" (devel)".data.drop (c.drop u.length).length).length =
          8 - (c.drop u.length).length := by
        rw [List.length_drop, hplen]
      rw [← hlen3, List.take_left]
    have e8 : (" (devel)".data.take 7).take (8 - (c.drop u.length).length) =
        " (devel)".data.take (8 - (c.drop u.length).length) := by
      rw [List.take_take]
      congr 1
      rw [hdlen]
      omega
    rw [e7, e8] at ht3
    set n := (c.drop u.length).length with hn
    have hd1 : 1 ≤ n := by omega
    have hd7 : n ≤ 7 := by omega
    interval_cases n <;> exact absurd ht3 (by decide)

theorem takeWhile_append_of_mem (sep : Char) (a b : List Char) (h : sep ∈ a) :
    (a ++ b).takeWhile (fun c => c != sep) = a.takeWhile (fun c => c != sep) := by
  induction a with
  | nil => exact absurd h (List.not_mem_nil sep)
  | cons x a' ih =>
    by_cases hx : x = sep
    · subst hx
      simp [List.takeWhile_cons]
    · have h' : sep ∈ a' := by
        rcases List.mem_cons.1 h with h1 | h1
        · exact absurd h1.symm hx
        · exact h1
      simp only [List.cons_append, List.takeWhile_cons]
      have hb : (x != sep) = true := by simp [hx]
      rw [hb, ih h']

theorem afterTilde_eq_takeWhile (v : List Char) :
    afterTilde v = v.takeWhile (fun c => c != '~') := headI_goSplitChar '~' v

theorem afterTilde_of_not_mem (v : List Char) (h : '~' ∉ v) : afterTilde v = v := by
  rw [afterTilde, goSplitChar_eq_single '~' v h]
  rfl

theorem isDigit_ne_special (c : Char) (h : c.isDigit = true) :
    c ≠ '~' ∧ c ≠ '.' ∧ c ≠ '-' ∧ c ≠ ' ' ∧ c ≠ '(' ∧ c ≠ ')' := by
  refine ⟨?_, ?_, ?_, ?_, ?_, ?_⟩ <;> (rintro rfl; exact absurd h (by decide))

theorem cmpAtLeast_eq_true_iff (mj mn mc major minor micro : Int) :
    cmpAtLeast mj mn mc major minor micro = true ↔
      (major < mj ∨ (major = mj ∧ (minor < mn ∨ (minor = mn ∧ micro ≤ mc)))) := by
  unfold cmpAtLeast
  split_ifs <;> simp <;> omega

theorem filterMap_eq_map_filter (f : String → Option Container) (d : Container)
    (l : List String) :
    l.filterMap f = (l.filter (fun a => (f a).isSome)).map (fun a => (f a).getD d) := by
  induction l with
  | nil => rfl
  | cons a l ih => cases hf : f a <;> simp [List.filterMap_cons, List.filter_cons, hf, ih]

/-- The parsing front end of `RuntimeLiblxcVersionAtLeast` in isolation: the
ordinal `(maj, min, mic)` the function goes on to compare, defined (`some`)
exactly when the version string is not development-flagged and the parsing
loop succeeds. -/
def parseNonDevel (version : List Char) : Option (Int × Int × Int) :=
  if (versionParts version).length = 0 then none
  else if isDevelParts (versionParts version) then none
  else parseLoop (versionParts version)

/-- C1: for every version string that parses to a non-development ordinal
`(mj, mn, mc)` and every requested triple, `RuntimeLiblxcVersionAtLeast`
returns true iff the parsed ordinal is lexicographically at least the
requested one — major first, then minor, then micro, equality falling
through and full equality returning true; in particular the three sample
comparisons of the spec hold. -/
theorem runtimeVersionAtLeast_lex (version : String) (mj mn mc major minor micro : Int)
    (h : parseNonDevel version.data = some (mj, mn, mc)) :
    (RuntimeLiblxcVersionAtLeast version major minor micro = true ↔
      (major < mj ∨ (major = mj ∧ (minor < mn ∨ (minor = mn ∧ micro ≤ mc)))))
    ∧ RuntimeLiblxcVersionAtLeast "3.1.0" 3 1 0 = true
    ∧ RuntimeLiblxcVersionAtLeast "3.0.9" 3 1 0 = false
    ∧ RuntimeLiblxcVersionAtLeast "4.0.0" 3 1 0 = true := by
  refine ⟨?_, by decide, by decide, by decide⟩
  unfold parseNonDevel at h
  unfold RuntimeLiblxcVersionAtLeast runtimeAtLeastCore
  split_ifs at h with h0 h1
  rw [if_neg h0, if_neg h1, h]
  exact cmpAtLeast_eq_true_iff mj mn mc major minor micro

/-- Witness for `runtimeVersionAtLeast_lex` at the concrete input
`"3.1.0"` against the requested triple `(3, 1, 0)`. -/
theorem runtimeVersionAtLeast_lex_witness :
    RuntimeLiblxcVersionAtLeast "3.1.0" 3 1 0 = true :=
  ((runtimeVersionAtLeast_lex "3.1.0" 3 1 0 3 1 0 (by decide)).1).2
    (Or.inr ⟨rfl, Or.inr ⟨rfl, by decide⟩⟩)

/-- C2 counterexample: in `"3.x"` the leading component parses (to 3) and
the minor component is present but unparseable; the comparison against
`(2, 0, 0)` returns false, although the comparison on the successfully
parsed fields with the failing field left unset — which the claim says is
what happens — would return true (3 > 2 decides immediately). -/
theorem trailingParseFailure_not_unset :
    RuntimeLiblxcVersionAtLeast "3.x" 2 0 0 = false
    ∧ goAtoi ("3" : String).data = some 3
    ∧ goAtoi ("x" : String).data = none
    ∧ cmpAtLeast 3 (-1) (-1) 2 0 0 = true := by
  exact ⟨by decide, by decide, by decide, by decide⟩

/-- C2 amended: a component that is present but fails to parse fails the
whole comparison (returns false) at any of the three positions, not only
the leading one; only a missing trailing component is left unset (`-1`),
with the comparison proceeding on the parsed fields. -/
theorem parseFailure_any_position (v : List Char) (major minor micro : Int) :
    (isDevelParts (versionParts v) = false → parseLoop (versionParts v) = none →
      runtimeAtLeastCore v major minor micro = false)
    ∧ (∀ a x, goAtoi a = some x → parseLoop [a] = some (x, -1, -1))
    ∧ (∀ a b x y, goAtoi a = some x → goAtoi b = some y →
        parseLoop [a, b] = some (x, y, -1)) := by
  refine ⟨?_, ?_, ?_⟩
  · intro h1 h2
    unfold runtimeAtLeastCore
    split_ifs with h0 hD
    · rfl
    · exact absurd hD (by simp [h1])
    · rw [h2]
  · intro a x h
    simp [parseLoop, h]
  · intro a b x y ha hb
    simp [parseLoop, ha, hb]

/-- Witness for `parseFailure_any_position`: the concrete input `"3.x"`
(minor present but unparseable) against `(2, 0, 0)` returns false, while a
merely missing micro (`["2", "1"]`) is left unset. -/
theorem parseFailure_any_position_witness :
    runtimeAtLeastCore ("3.x" : String).data 2 0 0 = false
    ∧ parseLoop [("2" : String).data, ("1" : String).data] = some (2, 1, -1) :=
  ⟨(parseFailure_any_position ("3.x" : String).data 2 0 0).1 (by decide) (by decide),
   (parseFailure_any_position [] 0 0 0).2.2 ("2" : String).data ("1" : String).data 2 1
     (by decide) (by decide)⟩

/-- C3 counterexample: `"a.0.0-devel"` has an unparseable leading numeric
component (`"a"`), yet the devel short-circuit fires first and every
`AtLeast` query returns true, not false. -/
theorem unparseableLeading_devel_true :
    goAtoi ((versionParts ("a.0.0-devel" : String).data).headI) = none
    ∧ RuntimeLiblxcVersionAtLeast "a.0.0-devel" 0 0 0 = true := by
  exact ⟨by decide, by decide⟩

/-- C3 amended: a version string whose leading numeric component cannot be
parsed fails every comparison (returns false) unless its last
dot-separated component carries a devel marker (`X-devel`), in which case
every comparison returns true instead. -/
theorem unparseableLeading_failClosed (v : List Char) (major minor micro : Int) :
    (isDevelParts (versionParts v) = false → goAtoi ((versionParts v).headI) = none →
      runtimeAtLeastCore v major minor micro = false)
    ∧ (isDevelParts (versionParts v) = true →
      runtimeAtLeastCore v major minor micro = true) := by
  constructor
  · intro h1 h2
    unfold runtimeAtLeastCore
    split_ifs with h0 hD
    · rfl
    · exact absurd hD (by simp [h1])
    · have hloop : parseLoop (versionParts v) = none := by
        cases hp : versionParts v with
        | nil => exact absurd hp (goSplitChar_ne_nil '.' _)
        | cons p rest =>
          rw [hp] at h2
          simp only [List.headI] at h2
          cases rest with
          | nil => simp [parseLoop, h2]
          | cons q rest' =>
            cases rest' with
            | nil => simp [parseLoop, h2]
            | cons w rest'' => simp [parseLoop, h2]
      rw [hloop]
  · intro h1
    unfold runtimeAtLeastCore
    have hne : versionParts v ≠ [] := goSplitChar_ne_nil '.' _
    rw [if_neg (by simpa using hne), if_pos h1]

/-- Witness for `unparseableLeading_failClosed`: `"x"` (unparseable, no
devel marker) fails closed; `"x-devel"` is development-flagged and
succeeds. -/
theorem unparseableLeading_failClosed_witness :
    runtimeAtLeastCore ("x" : String).data 9 9 9 = false
    ∧ runtimeAtLeastCore ("x-devel" : String).data 9 9 9 = true :=
  ⟨(unparseableLeading_failClosed ("x" : String).data 9 9 9).1 (by decide) (by decide),
   (unparseableLeading_failClosed ("x-devel" : String).data 9 9 9).2 (by decide)⟩

theorem special_not_mem_core (X Y Z tail : List Char)
    (hX : ∀ c ∈ X, c.isDigit) (hY : ∀ c ∈ Y, c.isDigit) (hZ : ∀ c ∈ Z, c.isDigit)
    (t : Char) (ht : ¬ t.isDigit) (hdot : t ≠ '.') (htail : t ∉ tail) :
    t ∉ X ++ ('.' :: (Y ++ ('.' :: (Z ++ tail)))) := by
  intro hm
  rcases List.mem_append.1 hm with h | h
  · exact ht (hX _ h)
  rcases List.mem_cons.1 h with h | h
  · exact hdot h
  rcases List.mem_append.1 h with h | h
  · exact ht (hY _ h)
  rcases List.mem_cons.1 h with h | h
  · exact hdot h
  rcases List.mem_append.1 h with h | h
  · exact ht (hZ _ h)
  · exact htail h

theorem digitString_parts (X Y Z : List Char)
    (hX : ∀ c ∈ X, c.isDigit) (hY : ∀ c ∈ Y, c.isDigit) (hZ : ∀ c ∈ Z, c.isDigit) :
    versionParts (X ++ ('.' :: (Y ++ ('.' :: (Z ++ ("-devel" : String).data))))) =
      [X, Y, Z ++ ("-devel" : String).data]
    ∧ versionParts (X ++ ('.' :: (Y ++ ('.' :: (Z ++ (" (devel)" : String).data))))) =
      [X, Y, Z ++ ("-devel" : String).data] := by
  have hdot : ∀ (W : List Char), (∀ c ∈ W, c.isDigit) → '.' ∉ W := by
    intro W hW h
    exact (isDigit_ne_special _ (hW _ h)).2.1 rfl
  have hsplit : goSplitChar '.' (X ++ ('.' :: (Y ++ ('.' :: (Z ++ ("-devel" : String).data))))) =
      [X, Y, Z ++ ("-devel" : String).data] := by
    rw [goSplitChar_append '.' X _ (hdot X hX),
      goSplitChar_append '.' Y _ (hdot Y hY)]
    rw [goSplitChar_eq_single '.' _ ?_]
    intro h
    rcases List.mem_append.1 h with h | h
    · exact (isDigit_ne_special _ (hZ _ h)).2.1 rfl
    · exact absurd h (by decide)
  have hnorm1 : afterDevelNorm (X ++ ('.' :: (Y ++ ('.' :: (Z ++ ("-devel" : String).data))))) =
      X ++ ('.' :: (Y ++ ('.' :: (Z ++ ("-devel" : String).data)))) := by
    apply goReplaceOnce_of_not_infix
    intro hi
    exact special_not_mem_core X Y Z _ hX hY hZ '(' (by decide) (by decide) (by decide)
      (hi.subset (by decide))
  have hnorm2 : afterDevelNorm (X ++ ('.' :: (Y ++ ('.' :: (Z ++ (" (devel)" : String).data))))) =
      X ++ ('.' :: (Y ++ ('.' :: (Z ++ ("-devel" : String).data)))) := by
    have hshape : X ++ ('.' :: (Y ++ ('.' :: (Z ++ (" (devel)" : String).data)))) =
        (X ++ ('.' :: (Y ++ ('.' :: Z)))) ++ ((" (devel)" : String).data ++ []) := by
      simp
    have hcross : ¬ (" (devel)" : String).data <:+:
        ((X ++ ('.' :: (Y ++ ('.' :: Z)))) ++
          (" (devel)" : String).data.take ((" (devel)" : String).data.length - 1)) := by
      intro hi
      have hmem := hi.subset (show ')' ∈ (" (devel)" : String).data by decide)
      have hmem2 : ')' ∈ X ++ ('.' :: (Y ++ ('.' :: (Z ++
          (" (devel)" : String).data.take ((" (devel)" : String).data.length - 1))))) := by
        simpa using hmem
      exact special_not_mem_core X Y Z _ hX hY hZ ')' (by decide) (by decide) (by decide) hmem2
    have hrepl := goReplaceOnce_append (" (devel)" : String).data ("-devel" : String).data
      (by decide) (X ++ ('.' :: (Y ++ ('.' :: Z)))) [] hcross
    rw [afterDevelNorm, hshape, hrepl]
    simp
  have htilde1 : afterTilde (X ++ ('.' :: (Y ++ ('.' :: (Z ++ ("-devel" : String).data))))) =
      X ++ ('.' :: (Y ++ ('.' :: (Z ++ ("-devel" : String).data)))) :=
    afterTilde_of_not_mem _
      (special_not_mem_core X Y Z _ hX hY hZ '~' (by decide) (by decide) (by decide))
  have htilde2 : afterTilde (X ++ ('.' :: (Y ++ ('.' :: (Z ++ (" (devel)" : String).data))))) =
      X ++ ('.' :: (Y ++ ('.' :: (Z ++ (" (devel)" : String).data)))) :=
    afterTilde_of_not_mem _
      (special_not_mem_core X Y Z _ hX hY hZ '~' (by decide) (by decide) (by decide))
  constructor
  · rw [versionParts, htilde1, hnorm1, hsplit]
  · rw [versionParts, htilde2, hnorm2, hsplit]

/-- C4: for every numeric core `X.Y.Z` (digit strings) and every requested
triple, `RuntimeLiblxcVersionAtLeast` returns true on both `"X.Y.Z-devel"`
and `"X.Y.Z (devel)"` — the two devel renderings are accepted alike and a
development-flagged version satisfies any comparison, as in the spec's
`"5.0.0-devel"` / `"5.0.0 (devel)"` versus `(99, 99, 99)` example. -/
theorem develVersion_always_atLeast (X Y Z : List Char)
    (hX : ∀ c ∈ X, c.isDigit) (hY : ∀ c ∈ Y, c.isDigit) (hZ : ∀ c ∈ Z, c.isDigit)
    (major minor micro : Int) :
    runtimeAtLeastCore (X ++ ('.' :: (Y ++ ('.' :: (Z ++ ("-devel" : String).data)))))
      major minor micro = true
    ∧ runtimeAtLeastCore (X ++ ('.' :: (Y ++ ('.' :: (Z ++ (" (devel)" : String).data)))))
      major minor micro = true
    ∧ RuntimeLiblxcVersionAtLeast "5.0.0-devel" 99 99 99 = true
    ∧ RuntimeLiblxcVersionAtLeast "5.0.0 (devel)" 99 99 99 = true := by
  obtain ⟨hp1, hp2⟩ := digitString_parts X Y Z hX hY hZ
  have hdevel : isDevelParts [X, Y, Z ++ ("-devel" : String).data] = true := by
    have hgl : ([X, Y, Z ++ ("-devel" : String).data]).getLastD [] =
        Z ++ ("-devel" : String).data := rfl
    rw [isDevelParts, hgl]
    have hshape : Z ++ ("-devel" : String).data = Z ++ '-' :: ("devel" : String).data := rfl
    have hZd : '-' ∉ Z := fun h => (isDigit_ne_special _ (hZ _ h)).2.2.1 rfl
    rw [hshape, goSplitChar_append '-' Z _ hZd,
      goSplitChar_eq_single '-' _ (by decide)]
    simp
  have hcore : ∀ w : List Char, versionParts w = [X, Y, Z ++ ("-devel" : String).data] →
      runtimeAtLeastCore w major minor micro = true := by
    intro w hw
    rw [runtimeAtLeastCore, hw, if_neg (by simp), if_pos hdevel]
  exact ⟨hcore _ hp1, hcore _ hp2, by decide, by decide⟩

/-- Witness for `develVersion_always_atLeast` at the numeric core `5.0.0`
against the requested triple `(99, 99, 99)`. -/
theorem develVersion_always_atLeast_witness :
    runtimeAtLeastCore (['5'] ++ ('.' :: (['0'] ++ ('.' :: (['0'] ++ ("-devel" : String).data)))))
      99 99 99 = true
    ∧ runtimeAtLeastCore
      (['5'] ++ ('.' :: (['0'] ++ ('.' :: (['0'] ++ (" (devel)" : String).data)))))
      99 99 99 = true :=
  ⟨(develVersion_always_atLeast ['5'] ['0'] ['0'] (by decide) (by decide) (by decide)
      99 99 99).1,
   (develVersion_always_atLeast ['5'] ['0'] ['0'] (by decide) (by decide) (by decide)
      99 99 99).2.1⟩

/-- C5: everything from the first `~` onward is discarded before parsing —
the comparison of any version string coincides with the comparison of its
prefix before the first `~`; and `"2.1~ubuntu1"` parses to the ordinal
`(2, 1, -1)` with the micro field unset, which is observably different
from `(2, 1, 0)`: the string fails against `(2, 1, 0)` but satisfies
`(2, 0, 0)`. -/
theorem tildeSuffix_stripped (s : List Char) (major minor micro : Int) :
    runtimeAtLeastCore s major minor micro =
      runtimeAtLeastCore (s.takeWhile (fun c => c != '~')) major minor micro
    ∧ RuntimeLiblxcVersionAtLeast "2.1~ubuntu1" 2 1 0 = false
    ∧ RuntimeLiblxcVersionAtLeast "2.1~ubuntu1" 2 0 0 = true
    ∧ parseLoop (versionParts ("2.1~ubuntu1" : String).data) = some (2, 1, -1) := by
  refine ⟨?_, by decide, by decide, by decide⟩
  have hparts : versionParts s = versionParts (s.takeWhile (fun c => c != '~')) := by
    rw [versionParts, versionParts, afterTilde_eq_takeWhile, afterTilde_eq_takeWhile,
      List.takeWhile_idem]
  rw [runtimeAtLeastCore, runtimeAtLeastCore, hparts]

/-- C6: `HasAPIExtension` consults the runtime extension query only when
`RuntimeLiblxcVersionAtLeast(Version(), 3, 1, 0)` holds, in which case it
returns exactly the query's answer; otherwise it returns false for every
possible query function — i.e. without invoking the runtime call. -/
theorem hasAPIExtension_gated (raw : String) (q : String → Bool) (ext : String) :
    (RuntimeLiblxcVersionAtLeast (Version raw) 3 1 0 = true →
      HasAPIExtension raw q ext = q ext)
    ∧ (RuntimeLiblxcVersionAtLeast (Version raw) 3 1 0 = false →
      ∀ q' : String → Bool, HasAPIExtension raw q' ext = false) := by
  constructor
  · intro h
    rw [HasAPIExtension, if_pos h]
  · intro h q'
    rw [HasAPIExtension, if_neg (by rw [h]; exact Bool.false_ne_true)]

/-- Witness for `hasAPIExtension_gated`: a 1.0.0 runtime is below 3.1.0, so
the extension query is not consulted and the result is false even for a
query that always answers true. -/
theorem hasAPIExtension_gated_witness :
    HasAPIExtension "1.0.0" (fun _ => true) "mount_injection" = false :=
  (hasAPIExtension_gated "1.0.0" (fun _ => true) "mount_injection").2 (by decide)
    (fun _ => true)

/-- C7: for each of the three enumeration modes, when the runtime listing
primitive reports a count of zero or any negative count the function
returns the empty sequence (and there is no error channel at all in its
type); a negative count behaves identically to a zero count. -/
theorem listNames_empty_on_nonpositive
    (listAll listDefined listActive : Option String → Int × List String)
    (path : List String)
    (hA : ∀ p, (listAll p).1 ≤ 0) (hD : ∀ p, (listDefined p).1 ≤ 0)
    (hAc : ∀ p, (listActive p).1 ≤ 0) :
    containerNames listAll path = []
    ∧ definedContainerNames listDefined path = []
    ∧ activeContainerNames listActive path = []
    ∧ (∀ (k : Int), k ≤ 0 → ∀ (names : List String) (q : List String),
        containerNames (fun _ => (k, names)) q = containerNames (fun _ => (0, names)) q) := by
  refine ⟨?_, ?_, ?_, ?_⟩
  · simp only [containerNames]
    rw [if_pos (by split <;> exact lt_of_le_of_lt (hA _) (by norm_num))]
  · simp only [definedContainerNames]
    rw [if_pos (by split <;> exact lt_of_le_of_lt (hD _) (by norm_num))]
  · simp only [activeContainerNames]
    rw [if_pos (by split <;> exact lt_of_le_of_lt (hAc _) (by norm_num))]
  · intro k hk names q
    simp only [containerNames, ite_self]
    rw [if_pos (by omega), if_pos (by norm_num)]

/-- Witness for `listNames_empty_on_nonpositive`: a runtime reporting -3
(respectively 0) yields the empty sequence in every mode. -/
theorem listNames_empty_on_nonpositive_witness :
    containerNames (fun _ => ((-3 : Int), ["ghost"])) [] = []
    ∧ activeContainerNames (fun _ => ((0 : Int), ["ghost"])) ["p"] = [] := by
  refine ⟨(listNames_empty_on_nonpositive (fun _ => ((-3 : Int), ["ghost"]))
      (fun _ => ((-3 : Int), ["ghost"])) (fun _ => ((-3 : Int), ["ghost"])) []
      ?_ ?_ ?_).1,
    (listNames_empty_on_nonpositive (fun _ => ((0 : Int), ["ghost"]))
      (fun _ => ((0 : Int), ["ghost"])) (fun _ => ((0 : Int), ["ghost"])) ["p"]
      ?_ ?_ ?_).2.2.1⟩ <;>
    (intro p; norm_num)

/-- C8: each handle-list function returns exactly the handles of the names
whose creation succeeded, in listing order (the filter/map reformulation of
the loop), and a creation failure never aborts the enumeration or raises an
error — concretely, when the middle of three names fails creation, exactly
the two other handles are returned. -/
theorem handleList_skips_failures
    (listAll listDefined listActive : Option String → Int × List String)
    (alloc : String → Option String → Option Nat) (path : List String) :
    containers listAll alloc path =
      ((containerNames listAll path).filter (fun v => (newContainer alloc v path).isSome)).map
        (fun v => (newContainer alloc v path).getD ⟨0, Verbosity.quiet⟩)
    ∧ definedContainers listDefined alloc path =
      ((definedContainerNames listDefined path).filter
        (fun v => (newContainer alloc v path).isSome)).map
        (fun v => (newContainer alloc v path).getD ⟨0, Verbosity.quiet⟩)
    ∧ activeContainers listActive alloc path =
      ((activeContainerNames listActive path).filter
        (fun v => (newContainer alloc v path).isSome)).map
        (fun v => (newContainer alloc v path).getD ⟨0, Verbosity.quiet⟩)
    ∧ containers (fun _ => ((3 : Int), ["a", "b", "c"]))
        (fun n _ => if n = "a" then some 1 else if n = "c" then some 3 else none) [] =
        [⟨1, Verbosity.quiet⟩, ⟨3, Verbosity.quiet⟩] :=
  ⟨filterMap_eq_map_filter _ _ _, filterMap_eq_map_filter _ _ _,
   filterMap_eq_map_filter _ _ _, by decide⟩

/-- C9: when two or more path arguments are supplied, `NewContainer` and
the three name-listing functions ignore all of them and behave exactly as
if no path had been given. -/
theorem extraPaths_ignored (alloc : String → Option String → Option Nat)
    (prim : Option String → Int × List String) (name : String) (args : List String)
    (h : 2 ≤ args.length) :
    newContainer alloc name args = newContainer alloc name []
    ∧ containerNames prim args = containerNames prim []
    ∧ definedContainerNames prim args = definedContainerNames prim []
    ∧ activeContainerNames prim args = activeContainerNames prim [] := by
  have hne : ¬ args.length = 1 := by omega
  have hne0 : ¬ ([] : List String).length = 1 := by simp
  refine ⟨?_, ?_, ?_, ?_⟩ <;>
    simp only [newContainer, containerNames, definedContainerNames, activeContainerNames,
      if_neg hne, if_neg hne0]

/-- Witness for `extraPaths_ignored`: with two supplied paths the result
coincides with the no-path call. -/
theorem extraPaths_ignored_witness :
    newContainer (fun _ _ => some 5) "c" ["p", "q"] = newContainer (fun _ _ => some 5) "c" [] :=
  (extraPaths_ignored (fun _ _ => some 5) (fun _ => ((0 : Int), [])) "c" ["p", "q"]
    (by decide)).1

/-- C10 counterexample: for the raw version string `"a (devel).0-devel"`
the display transformation of `Version()` rewrites the trailing
`"-devel"` to `" (devel)"`, and the comparison outcome flips — the
original string satisfies `(0,0,0)` (devel short-circuit) while its
display form does not. -/
theorem versionDisplay_changes_outcome :
    Version "a (devel).0-devel" = "a (devel).0 (devel)"
    ∧ RuntimeLiblxcVersionAtLeast "a (devel).0-devel" 0 0 0 = true
    ∧ RuntimeLiblxcVersionAtLeast (Version "a (devel).0-devel") 0 0 0 = false :=
  ⟨by decide, by decide, by decide⟩

theorem stripped_eq_of_display (s : List Char) (h : ¬ " (devel)".data <:+: s) :
    afterDevelNorm (afterTilde (versionDisplay s)) = afterDevelNorm (afterTilde s) := by
  by_cases hsuf : ("-devel" : String).data <:+ s
  · obtain ⟨c, hc⟩ := hsuf
    have hdisp : versionDisplay s = c ++ " (devel)".data := by
      rw [versionDisplay, if_pos (List.isSuffixOf_iff_suffix.2 ⟨c, hc⟩)]
      rw [← hc]
      congr 1
      have hl : (c ++ ("-devel" : String).data).length - 6 = c.length := by
        rw [List.length_append]
        have hd6 : (("-devel" : String).data).length = 6 := rfl
        omega
      rw [hl]
      exact List.take_left c _
    by_cases ht : '~' ∈ c
    · have h1 : afterTilde s = c.takeWhile (fun x => x != '~') := by
        rw [← hc, afterTilde_eq_takeWhile, takeWhile_append_of_mem '~' c _ ht]
      have h2 : afterTilde (versionDisplay s) = c.takeWhile (fun x => x != '~') := by
        rw [hdisp, afterTilde_eq_takeWhile, takeWhile_append_of_mem '~' c _ ht]
      rw [h1, h2]
    · have hts : '~' ∉ s := by
        rw [← hc]
        intro hm
        rcases List.mem_append.1 hm with hm | hm
        · exact ht hm
        · exact absurd hm (by decide)
      have htd : '~' ∉ versionDisplay s := by
        rw [hdisp]
        intro hm
        rcases List.mem_append.1 hm with hm | hm
        · exact ht hm
        · exact absurd hm (by decide)
      rw [afterTilde_of_not_mem _ hts, afterTilde_of_not_mem _ htd, hdisp]
      have hnorm_s : afterDevelNorm s = s := goReplaceOnce_of_not_infix s _ _ h
      have hcross : ¬ " (devel)".data <:+:
          (c ++ " (devel)".data.take ((" (devel)".data).length - 1)) := by
        intro hi
        have h7 : " (devel)".data.take ((" (devel)".data).length - 1) =
            " (devel)".data.take 7 := rfl
        rw [h7] at hi
        have hic := develPat_no_crossing c hi
        apply h
        rw [← hc]
        exact hic.trans (List.prefix_append c _).isInfix
      have hrepl := goReplaceOnce_append " (devel)".data "-devel".data (by decide) c [] hcross
      rw [afterDevelNorm]
      have hcp : c ++ " (devel)".data = c ++ (" (devel)".data ++ []) := by simp
      rw [hcp, hrepl, hnorm_s, ← hc]
      simp
  · have hb : ¬ (("-devel" : String).data.isSuffixOf s = true) :=
      fun hb => hsuf (List.isSuffixOf_iff_suffix.1 hb)
    rw [versionDisplay, if_neg hb]

/-- C10 amended: the display transformation of `Version()` never changes
the comparison outcome for raw version strings that do not already contain
the substring `" (devel)"`; for a string that contains `" (devel)"` and
also ends in `"-devel"`, the outcome can change (see the
counterexample). -/
theorem versionDisplay_preserves_outcome (s : String)
    (h : ¬ (" (devel)" : String).data <:+: s.data) (major minor micro : Int) :
    RuntimeLiblxcVersionAtLeast (Version s) major minor micro =
      RuntimeLiblxcVersionAtLeast s major minor micro := by
  have hd : (Version s).data = versionDisplay s.data := rfl
  rw [RuntimeLiblxcVersionAtLeast, RuntimeLiblxcVersionAtLeast, hd,
    runtimeAtLeastCore, runtimeAtLeastCore, versionParts, versionParts,
    stripped_eq_of_display s.data h]

/-- Witness for `versionDisplay_preserves_outcome` at the raw string
`"3.1.0-devel"` (which contains no `" (devel)"`). -/
theorem versionDisplay_preserves_outcome_witness :
    RuntimeLiblxcVersionAtLeast (Version "3.1.0-devel") 3 1 0 =
      RuntimeLiblxcVersionAtLeast "3.1.0-devel" 3 1 0 :=
  versionDisplay_preserves_outcome "3.1.0-devel" (by decide) 3 1 0

end GoLxc
